import Mathlib

/-!
Verification development for the hyper-tuner Strategy Execution Engine.

The definitions below are a shallow embedding of the dynamically created
backtrader strategy class `CustomStrategy` captured in the repository's
strategy-comparison document (src/unnamed/part_007).  Prices, thresholds and
indicator values are modelled as rationals; a Python/NumPy float that may be
NaN is modelled by `PyFloat`.  Division by zero cannot occur at the inputs the
engine feeds these functions (entry prices are executed fills, equity values
are positive); where the Python source would raise on a degenerate input the
model says so in a comment next to the definition.
-/

namespace HyperTuner

/-- Model of a Python/NumPy float value carried by a data-feed line: either a
genuine number (a rational in the model) or NaN (warm-up bars of an
indicator column). -/
inductive PyFloat where
  | nan : PyFloat
  | num (q : ℚ) : PyFloat
  deriving DecidableEq, Repr

/-- Python semantics of `var_value > threshold` (false when NaN). -/
def pyGt : PyFloat → ℚ → Bool
  | .nan, _ => false
  | .num q, t => t < q

/-- Python semantics of `var_value >= threshold` (false when NaN). -/
def pyGe : PyFloat → ℚ → Bool
  | .nan, _ => false
  | .num q, t => t ≤ q

/-- Python semantics of `var_value < threshold` (false when NaN). -/
def pyLt : PyFloat → ℚ → Bool
  | .nan, _ => false
  | .num q, t => q < t

/-- Python semantics of `var_value <= threshold` (false when NaN). -/
def pyLe : PyFloat → ℚ → Bool
  | .nan, _ => false
  | .num q, t => q ≤ t

/-- Python semantics of `var_value == threshold` (false when NaN). -/
def pyEq : PyFloat → ℚ → Bool
  | .nan, _ => false
  | .num q, t => q = t

/-- Python semantics of `var_value != threshold` (true when NaN, IEEE rule). -/
def pyNe : PyFloat → ℚ → Bool
  | .nan, _ => true
  | .num q, t => q ≠ t

/-- The `float(var_value) if not np.isnan(var_value) else None` conversion
used when recording a condition evaluation (part_007 line 539). -/
def PyFloat.toTrace : PyFloat → Option ℚ
  | .nan => none
  | .num q => some q

/-- One entry/exit condition as the strategy receives it: a Python dict whose
keys may each be absent.  The dict key `variable` is spelled `var` because
`variable` is a Lean keyword; `params` is omitted because the strategy class
never reads it when evaluating conditions. -/
structure Condition where
  indicator : Option String := none
  comparison : Option String := none
  var : Option String := none
  threshold : Option ℚ := none
  deriving DecidableEq, Repr

/-- One bar of the decorated data feed.  `popen`/`close` model
`self.datas[0].open[0]` / `self.datas[0].close[0]`; `lines` models the named
feed lines (`self.datas[0].lines`) as an association list from line name to
value, which is what `hasattr`/`getattr` consult in the source. -/
structure Bar where
  popen : ℚ := 0
  close : ℚ := 0
  lines : List (String × PyFloat) := []
  deriving DecidableEq, Repr

/-- Model of `hasattr(self.datas[0].lines, name)` / `getattr(...)[0]`:
`some v` when the line exists with current value `v`. -/
def lookupLine (bar : Bar) (name : String) : Option PyFloat :=
  bar.lines.lookup name

/-- Embeds part_007 lines 477-479: the sanitized line name
`safe_var_name = ''.join(c if c.isalnum() or c == '_' else '_' for c in var_name)`
followed by `if not safe_var_name[0].isalpha() and safe_var_name[0] != '_':
safe_var_name = 'ind_' + safe_var_name`.  On the empty string the Python
source raises IndexError at `safe_var_name[0]`; the model returns `""` there
and every theorem about condition evaluation assumes a nonempty variable name
(variable names produced by the strategy-creation layer are nonempty). -/
def sanitizeVar (v : String) : String :=
  let safe := String.mk (v.data.map fun c => if c.isAlphanum ∨ c = '_' then c else '_')
  if ¬ safe.front.isAlpha ∧ safe.front ≠ '_' then "ind_" ++ safe else safe

/-- Embeds the operator dispatch of part_007 lines 508-532 (identical at
lines 639-663): the six recognized comparison strings; any other operator
leaves `condition_result = False`. -/
def evalComparison (comparison : String) (v : PyFloat) (t : ℚ) : Bool :=
  if comparison = ">" then pyGt v t
  else if comparison = ">=" then pyGe v t
  else if comparison = "<" then pyLt v t
  else if comparison = "<=" then pyLe v t
  else if comparison = "==" then pyEq v t
  else if comparison = "!=" then pyNe v t
  else false

/-- One recorded condition evaluation (the dict appended to
`bar_tracking['conditions']`, part_007 lines 536-543 and 554-562).  `ctype`
models the `'type'` key. -/
structure TraceEntry where
  ctype : String
  var : String
  value : Option ℚ
  comparison : String
  threshold : ℚ
  result : Bool
  error : Option String := none
  deriving DecidableEq, Repr

/-- Evaluation of a single condition dict from the loop body of
`_evaluate_entry_conditions` (part_007 lines 465-562; the exit loop at
596-696 is identical up to the `'type'` label): indicator-only dicts and
dicts lacking `comparison` or `variable` are skipped producing no trace
entry; otherwise the variable is looked up first under its exact name, then
under its sanitized name, and a single trace entry is recorded — with the
comparison outcome on a hit, or `result = False` plus an error note when the
line is absent under both names. -/
def condTrace (ctype : String) (bar : Bar) (c : Condition) : List TraceEntry :=
  match c.comparison with
  | none => []
  | some cmp =>
    match c.var with
    | none => []
    | some v =>
      let t := c.threshold.getD 0
      match lookupLine bar v with
      | some x =>
          [{ ctype := ctype, var := v, value := x.toTrace, comparison := cmp,
             threshold := t, result := evalComparison cmp x t }]
      | none =>
        match lookupLine bar (sanitizeVar v) with
        | some x =>
            [{ ctype := ctype, var := v, value := x.toTrace, comparison := cmp,
               threshold := t, result := evalComparison cmp x t }]
        | none =>
            [{ ctype := ctype, var := v, value := none, comparison := cmp,
               threshold := t, result := false,
               error := some "Variable not found in data feed" }]

/-- Boolean outcome of a single condition: the contribution it makes to
`enter_trade`/`exit_trade` (true exactly when its comparison evaluates true;
false when skipped or when the variable is missing under both names). -/
def condResult (bar : Bar) (c : Condition) : Bool :=
  match c.comparison with
  | none => false
  | some cmp =>
    match c.var with
    | none => false
    | some v =>
      let t := c.threshold.getD 0
      match lookupLine bar v with
      | some x => evalComparison cmp x t
      | none =>
        match lookupLine bar (sanitizeVar v) with
        | some x => evalComparison cmp x t
        | none => false

/-- The `bar_tracking['conditions']` list built by one full pass over a
condition list (every condition is visited; the loop never exits early). -/
def evalTrace (ctype : String) (bar : Bar) (conds : List Condition) : List TraceEntry :=
  (conds.map (condTrace ctype bar)).flatten

/-- Embeds `_evaluate_entry_conditions` (part_007 lines 443-568).  Returns
the `enter_trade` boolean together with the `bar_tracking` record appended to
`self.condition_evaluations` — `none` when the 30-bar warm-up floor returns
early (line 449-450), before any tracking record is created. -/
def _evaluate_entry_conditions (current_bar : ℕ) (entry_conditions : List Condition)
    (bar : Bar) : Bool × Option (List TraceEntry) :=
  if current_bar < 30 then (false, none)
  else
    let t := evalTrace "entry" bar entry_conditions
    (t.any (·.result), some t)

/-- The `bars_in_position = current_bar - self.position_entry_bar` computation
(part_007 lines 573-580), defaulting to 0 when the entry bar was never set. -/
def barsInPosition (current_bar : ℕ) (position_entry_bar : Option ℕ) : ℤ :=
  match position_entry_bar with
  | some e => (current_bar : ℤ) - e
  | none => 0

/-- Embeds `_evaluate_exit_conditions` (part_007 lines 570-718): evaluate
every exit condition, OR their results, and as a failsafe force an exit when
`bars_in_position > 20 and not exit_trade`, appending the duration entry to
the tracking record (lines 698-712). -/
def _evaluate_exit_conditions (current_bar : ℕ) (position_entry_bar : Option ℕ)
    (exit_conditions : List Condition) (bar : Bar) : Bool × List TraceEntry :=
  let bip := barsInPosition current_bar position_entry_bar
  let t := evalTrace "exit" bar exit_conditions
  let exit_trade := t.any (·.result)
  if 20 < bip ∧ exit_trade = false then
    (true, t ++ [{ ctype := "exit", var := "bars_in_position", value := some (bip : ℚ),
                   comparison := ">", threshold := 20, result := true }])
  else (exit_trade, t)

/-- Unrealized profit percentage computed by the in-bar risk check of
`CustomStrategy.next` (part_007 lines 407-415): `(price/entry - 1) * 100` for
a buy strategy and `(1 - price/entry) * 100` for a sell strategy.  The Python
source would raise ZeroDivisionError at `entry = 0`; entry prices are
executed fills and are nonzero. -/
def profit_pct (strategy_type : String) (entry price : ℚ) : ℚ :=
  if strategy_type = "buy" then (price / entry - 1) * 100 else (1 - price / entry) * 100

/-- Unrealized loss percentage of the same risk check (part_007 lines
411 and 415). -/
def loss_pct (strategy_type : String) (entry price : ℚ) : ℚ :=
  if strategy_type = "buy" then (1 - price / entry) * 100 else (price / entry - 1) * 100

/-- Realized profit percentage recorded on the trade by
`CustomStrategy.notify_order` when the closing sell executes (part_007 lines
285-290): `(exit/entry - 1) * 100` for a buy strategy and
`(entry/exit - 1) * 100` for a sell strategy. -/
def trade_profit_pct (strategy_type : String) (buyprice exitprice : ℚ) : ℚ :=
  if strategy_type = "buy" then (exitprice / buyprice - 1) * 100
  else (buyprice / exitprice - 1) * 100

/-- Realized profit in points recorded on the trade by `notify_order`
(part_007 lines 286 and 289). -/
def trade_profit_points (strategy_type : String) (buyprice exitprice : ℚ) : ℚ :=
  if strategy_type = "buy" then exitprice - buyprice else buyprice - exitprice

/-- The exit-reason taxonomy attached to a closed position, labelling the
four exit paths of `next`/`_evaluate_exit_conditions`: the take-profit branch
(part_007 lines 418-420), the stop-loss branch (lines 423-425), a true exit
condition (lines 640-677) and the 20-bar duration failsafe (lines 698-712). -/
inductive ExitReason where
  | TargetProfit : ExitReason
  | StopLoss : ExitReason
  | ExitCondition : ExitReason
  | MaxHoldingPeriod : ExitReason
  deriving DecidableEq, Repr

/-- Reason-labelled view of `_evaluate_exit_conditions`: `ExitCondition` when
some exit condition evaluated true (the source logs `Exit condition met`,
line 677), `MaxHoldingPeriod` when only the duration failsafe fired (the
source logs `Exit triggered by position duration`, line 702), `none` when the
function returns `False`. -/
def exitCondDecision (current_bar : ℕ) (position_entry_bar : Option ℕ)
    (exit_conditions : List Condition) (bar : Bar) : Option ExitReason :=
  if (evalTrace "exit" bar exit_conditions).any (·.result) then some .ExitCondition
  else if 20 < barsInPosition current_bar position_entry_bar then some .MaxHoldingPeriod
  else none

/-- Reason-labelled view of the full in-position exit logic of `next`
(part_007 lines 401-441): when the entry price is known, the take-profit
check runs first, then (elif) the stop-loss check, and only otherwise are the
exit conditions evaluated; when the entry price is `None` the source goes
straight to `_evaluate_exit_conditions` (lines 430-432). -/
def exitDecision (strategy_type : String) (stop_loss target_profit : ℚ)
    (exit_conditions : List Condition) (bar : Bar) (entry_price : Option ℚ)
    (current_bar : ℕ) (position_entry_bar : Option ℕ) : Option ExitReason :=
  match entry_price with
  | some entry =>
      if target_profit > 0 ∧ profit_pct strategy_type entry bar.close ≥ target_profit then
        some .TargetProfit
      else if stop_loss > 0 ∧ loss_pct strategy_type entry bar.close ≥ stop_loss then
        some .StopLoss
      else exitCondDecision current_bar position_entry_bar exit_conditions bar
  | none => exitCondDecision current_bar position_entry_bar exit_conditions bar

/-- The take-profit trigger `self.target_profit > 0 and profit_pct >=
self.target_profit` (part_007 line 418). -/
def tpTriggered (strategy_type : String) (target_profit entry close : ℚ) : Prop :=
  target_profit > 0 ∧ profit_pct strategy_type entry close ≥ target_profit

/-- The stop-loss trigger `self.stop_loss > 0 and loss_pct >= self.stop_loss`
(part_007 line 423). -/
def slTriggered (strategy_type : String) (stop_loss entry close : ℚ) : Prop :=
  stop_loss > 0 ∧ loss_pct strategy_type entry close ≥ stop_loss

/-- Some exit condition in the list compares true on this bar. -/
def ecTriggered (exit_conditions : List Condition) (bar : Bar) : Prop :=
  (evalTrace "exit" bar exit_conditions).any (·.result) = true

/-- The duration failsafe threshold `bars_in_position > 20` (part_007
line 700). -/
def mhTriggered (current_bar : ℕ) (position_entry_bar : Option ℕ) : Prop :=
  20 < barsInPosition current_bar position_entry_bar

instance (s : String) (t e c : ℚ) : Decidable (tpTriggered s t e c) :=
  inferInstanceAs (Decidable (_ ∧ _))

instance (s : String) (t e c : ℚ) : Decidable (slTriggered s t e c) :=
  inferInstanceAs (Decidable (_ ∧ _))

instance (xs : List Condition) (b : Bar) : Decidable (ecTriggered xs b) :=
  inferInstanceAs (Decidable (_ = _))

instance (n : ℕ) (e : Option ℕ) : Decidable (mhTriggered n e) :=
  inferInstanceAs (Decidable (_ < _))

/-- ASCII model of Python's `str.isidentifier` as used by
`CustomStrategy.__init__` (part_007 line 169): first character a letter or
underscore, remaining characters alphanumeric or underscore, and the string
nonempty.  (Python also admits non-ASCII identifier characters; the
identifiers this system produces are ASCII.) -/
def isPyIdentifier (s : String) : Bool :=
  match s.data with
  | [] => false
  | c :: rest => (c.isAlpha || c = '_') && rest.all (fun d => d.isAlphanum || d = '_')

/-- Outcome of strategy initialization.  The `validationError` constructor
expresses the failure mode the specification describes for the compiler; the
theorems below show the source never produces it — `__init__` always returns
normally. -/
inductive InitOutcome where
  | ok (initialized skipped : List String) : InitOutcome
  | validationError (kind : String) : InitOutcome
  deriving DecidableEq, Repr

/-- Whether initialization completed normally. -/
def InitOutcome.isOk : InitOutcome → Bool
  | .ok _ _ => true
  | .validationError _ => false

/-- The variable-initialization loop of `CustomStrategy.__init__` (part_007
lines 164-176) over `self.entry_conditions + self.exit_conditions`: a
condition without a `variable` key is ignored; a variable name that is not a
valid Python identifier is logged (`Warning: ... Skipping.`) and skipped via
`continue`; a valid name has an attribute initialized for it.  Returns the
names in processing order, partitioned into (initialized, skipped). -/
def initVarsAux : List Condition → List String × List String
  | [] => ([], [])
  | c :: rest =>
    let r := initVarsAux rest
    match c.var with
    | none => r
    | some v => if isPyIdentifier v then (v :: r.1, r.2) else (r.1, v :: r.2)

/-- Full outcome of the `__init__` variable-initialization pass: it always
completes with `ok` — the source contains no raise and no error return on
this path (warnings are only printed). -/
def initVariables (entry_conditions exit_conditions : List Condition) : InitOutcome :=
  let r := initVarsAux (entry_conditions ++ exit_conditions)
  .ok r.1 r.2

/-- Model of an IEEE double intended to distinguish the special values the
Sharpe guard is about: a finite value, the two infinities (finite/zero
division), and NaN (zero/zero). -/
inductive FloatVal where
  | fin (q : ℚ) : FloatVal
  | inf : FloatVal
  | neginf : FloatVal
  | nan : FloatVal
  deriving DecidableEq, Repr

/-- Whether a float value is an ordinary finite number. -/
def FloatVal.isFinite : FloatVal → Bool
  | .fin _ => true
  | _ => false

/-- IEEE-style division of finite rationals: finite for a nonzero divisor,
`±Inf` for `x/0` with `x ≠ 0`, `NaN` for `0/0`. -/
def fdiv (a b : ℚ) : FloatVal :=
  if b = 0 then (if a = 0 then .nan else if a > 0 then .inf else .neginf)
  else .fin (a / b)

/-- Model of `np.mean(returns_array)` (part_007 line 374). -/
def npMean (xs : List ℚ) : ℚ := xs.sum / xs.length

/-- Model of `np.std(returns_array) ** 2`, the population variance
(part_007 line 372 squared): `np.std` itself is `√npVar`, which is
irrational in general; since `√v > 0 ↔ v > 0` and `√v` is never NaN for the
finite rational returns the engine produces, the source's guard
`std_dev > 0 and not np.isnan(std_dev)` is expressed on the variance. -/
def npVar (xs : List ℚ) : ℚ :=
  (xs.map fun x => (x - npMean xs) ^ 2).sum / xs.length

/-- The value `mean/std_dev * sqrt(252)` of part_007 line 374, encoded so as
to stay rational: the map `s ↦ sign(s)·s²` sends the Sharpe value
`mean/√v·√252` to `sign(mean)·mean²·252/v`, is injective on the reals, and
carries finite/Inf/NaN exactly to finite/Inf/NaN — so this encoding is
finite precisely when the source's floating-point expression is. -/
def sharpeRaw (xs : List ℚ) : FloatVal :=
  fdiv ((if npMean xs ≥ 0 then 1 else -1) * npMean xs ^ 2 * 252) (npVar xs)

/-- The guarded Sharpe computation of part_007 lines 370-377: when
`std_dev > 0` (and not NaN) compute `mean/std_dev*sqrt(252)`, otherwise set
the Sharpe ratio to 0 with a warning. -/
def sharpeGuarded (xs : List ℚ) : FloatVal :=
  if 0 < npVar xs then sharpeRaw xs else .fin 0

/-- The per-bar update of `self.sharpe_ratio` (part_007 lines 367-380): only
recomputed once more than one return has accumulated, otherwise the previous
value (initially 0) is kept. -/
def sharpeStep (prev : FloatVal) (returns : List ℚ) : FloatVal :=
  if 1 < returns.length then sharpeGuarded returns else prev

/-- A completed trade record (`self.current_trade` once the closing order has
executed, part_007 lines 251-259 and 281-290).  The entry/exit timestamps of
the source are string-formatted datetimes and are not modelled. -/
structure TradeRec where
  entry_price : ℚ
  exit_price : Option ℚ := none
  profit_points : ℚ := 0
  profit_pct : ℚ := 0
  size : ℚ
  deriving DecidableEq, Repr

/-- An order created by `next` and pending with the broker
(`self.order`): a buy or a sell of a given size. -/
inductive PendingOrder where
  | buy (size : ℚ) : PendingOrder
  | sell (size : ℚ) : PendingOrder
  deriving DecidableEq, Repr

/-- The mutable state of a `CustomStrategy` instance plus the broker facts it
reads (`cash`/`position` determine `self.broker.getvalue()`).  The logging
calls and the `position_tracking` diagnostic list of the source are not
modelled; `condition_evaluations` collects the per-bar tracking records.
`error` models an uncaught Python exception propagating out of the strategy:
once set, the engine loop stops processing bars (see `runAux`). -/
structure StratState where
  order : Option PendingOrder := none
  buyprice : Option ℚ := none
  position : ℚ := 0
  cash : ℚ := 0
  equity_curve : List ℚ := []
  returns : List ℚ := []
  max_drawdown : ℚ := 0
  sharpe : FloatVal := .fin 0
  position_entry_bar : Option ℕ := none
  condition_evaluations : List (List TraceEntry) := []
  trades : List TradeRec := []
  current_trade : Option TradeRec := none
  error : Option String := none
  deriving DecidableEq, Repr

/-- The strategy state at the start of a run (`__init__`, part_007 lines
129-154), with the broker's starting cash. -/
def initState (cash : ℚ) : StratState :=
  { cash := cash }

/-- Largest element of a list of rationals (`max(self.equity_curve)`,
part_007 line 363; only applied to nonempty lists). -/
def listMax (l : List ℚ) : ℚ :=
  l.foldl max (l.head?.getD 0)

/-- Model of `self.broker.getvalue()`: cash plus the position marked at the
current close. -/
def brokerValue (st : StratState) (bar : Bar) : ℚ :=
  st.cash + st.position * bar.close

/-- Order execution by the broker at the start of a bar, delivered to
`notify_order` with status `Completed` before `next` runs — backtrader fills
a market order at the next bar's open and notifies before calling `next`
(the specification collapses this into a fill that always completes before
the following bar's processing).  The handler itself is embedded from
part_007 lines 237-331: a completed buy sets `buyprice`, opens
`current_trade` and records the entry bar (lines 245-275); a completed sell
fills in the exit side of `current_trade`, computes realized profit by
`trade_profit_pct`, appends the trade and clears the entry bar (lines
277-329); both clear `self.order`.  A sell completing with `current_trade`
unset raises AttributeError at line 281 (`__init__` never creates
`current_trade` — this is what every sell-direction entry fill hits, since
`notify_order` routes all completed sells to the exit branch), and a sell
completing with `current_trade` set but `buyprice` still `None` raises
TypeError in the profit arithmetic of lines 286/290 after lines 281-283 have
already stored the exit side.  In both cases the broker has already applied
the fill (position and cash move), the lines after the raise do not run
(`self.order` is not cleared, no trade is appended, the entry bar is not
reset), and the exception propagates: `error` is set and the run aborts. -/
def brokerStep (strategy_type : String) (bar_index : ℕ) (st : StratState)
    (bar : Bar) : StratState :=
  match st.order with
  | none => st
  | some (.buy s) =>
      let px := bar.popen
      { st with
        order := none
        buyprice := some px
        position := st.position + s
        cash := st.cash - px * s
        current_trade := some { entry_price := px, size := s }
        position_entry_bar := some bar_index }
  | some (.sell s) =>
      let px := bar.popen
      match st.buyprice, st.current_trade with
      | some bp, some ct =>
          { st with
            order := none
            position := st.position - s
            cash := st.cash + px * s
            position_entry_bar := none
            current_trade := none
            trades := st.trades ++
              [{ ct with
                 exit_price := some px
                 profit_points := trade_profit_points strategy_type bp px
                 profit_pct := trade_profit_pct strategy_type bp px }] }
      | _, none =>
          { st with
            position := st.position - s
            cash := st.cash + px * s
            error := some "AttributeError: current_trade" }
      | none, some ct =>
          { st with
            position := st.position - s
            cash := st.cash + px * s
            current_trade := some { ct with exit_price := some px }
            error := some "TypeError: buyprice is None" }

/-- Embeds `CustomStrategy.next` (part_007 lines 344-441).  `bar_index` is
`len(self.datas[0])`, the 1-based count of bars seen so far.  The method
returns immediately while an order is pending (lines 346-348); otherwise it
appends to the equity curve, the returns series, the drawdown maximum and the
Sharpe ratio (lines 350-380), then either evaluates entry conditions when
flat (lines 382-399) or runs the exit logic when in a position (lines
401-441), creating at most one order. -/
def nextStep (strategy_type : String) (entry_conditions exit_conditions : List Condition)
    (stop_loss target_profit : ℚ) (bar_index : ℕ) (st : StratState) (bar : Bar) :
    StratState :=
  if st.order.isSome then st
  else
    let v := brokerValue st bar
    let eq := st.equity_curve ++ [v]
    let ret := match st.equity_curve.getLast? with
      | some prev => v / prev - 1
      | none => 0
    let rets := st.returns ++ [ret]
    let md :=
      if 1 < eq.length then
        max st.max_drawdown ((listMax eq - v) / listMax eq * 100)
      else st.max_drawdown
    let sr := sharpeStep st.sharpe rets
    let st1 := { st with equity_curve := eq, returns := rets, max_drawdown := md,
                         sharpe := sr }
    if st.position = 0 then
      let e := _evaluate_entry_conditions bar_index entry_conditions bar
      let st2 := { st1 with condition_evaluations :=
        match e.2 with
        | some tr => st1.condition_evaluations ++ [tr]
        | none => st1.condition_evaluations }
      if e.1 then
        { st2 with order := some (if strategy_type = "buy" then .buy 1 else .sell 1) }
      else st2
    else
      let runExitConds : StratState → StratState := fun s =>
        let x := _evaluate_exit_conditions bar_index st.position_entry_bar
                   exit_conditions bar
        let s2 := { s with condition_evaluations := s.condition_evaluations ++ [x.2] }
        if x.1 then
          { s2 with order := some (if strategy_type = "buy" then .sell st.position
                                   else .buy |st.position|) }
        else s2
      match st.buyprice with
      | some entry =>
          if target_profit > 0 ∧ profit_pct strategy_type entry bar.close ≥ target_profit then
            { st1 with order := some (if strategy_type = "buy" then .sell st.position
                                      else .buy |st.position|) }
          else if stop_loss > 0 ∧ loss_pct strategy_type entry bar.close ≥ stop_loss then
            { st1 with order := some (if strategy_type = "buy" then .sell st.position
                                      else .buy |st.position|) }
          else runExitConds st1
      | none => runExitConds st1

/-- One full bar of the engine loop: pending-order execution (broker phase,
delivering `notify_order` before `next`), then `next` itself, with the
1-based bar count advanced.  An uncaught exception (`error` set) propagates
out of the strategy and ends the run: no further bar is processed, and when
the broker phase itself raises, `next` does not run on that bar either. -/
def runAux (strategy_type : String) (entry_conditions exit_conditions : List Condition)
    (stop_loss target_profit : ℚ) : StratState → ℕ → List Bar → StratState
  | st, _, [] => st
  | st, idx, bar :: rest =>
      if st.error.isSome then st
      else
        let st1 := brokerStep strategy_type (idx + 1) st bar
        if st1.error.isSome then st1
        else
          runAux strategy_type entry_conditions exit_conditions stop_loss target_profit
            (nextStep strategy_type entry_conditions exit_conditions stop_loss target_profit
              (idx + 1) st1 bar)
            (idx + 1) rest

/-- A whole backtest run of the strategy over a bar stream. -/
def runStrategy (strategy_type : String)
    (entry_conditions exit_conditions : List Condition)
    (stop_loss target_profit cash : ℚ) (bars : List Bar) : StratState :=
  runAux strategy_type entry_conditions exit_conditions stop_loss target_profit
    (initState cash) 0 bars

/-- A healthy flat strategy state: no pending order, no raised exception, no
position, and no entry data left over.  This is the state between trades and
the state every run starts in. -/
def flatClean (st : StratState) : Prop :=
  st.order = none ∧ st.error = none ∧ st.position = 0 ∧ st.buyprice = none ∧
  st.current_trade = none

/-- The invariant a buy-direction run maintains: no exception has been
raised, an open position always has its entry price and open trade record
set (they were stored by the entry buy's fill), and a pending sell order is
always a closing order — sized to the position, with entry price and open
trade record available for `notify_order`'s exit branch.  This is exactly
what makes the AttributeError/TypeError paths of `brokerStep` unreachable
for buy-direction runs. -/
def buyRunInv (st : StratState) : Prop :=
  st.error = none
  ∧ (st.position ≠ 0 → st.buyprice.isSome = true ∧ st.current_trade.isSome = true)
  ∧ ∀ s, st.order = some (PendingOrder.sell s) →
      s = st.position ∧ st.buyprice.isSome = true ∧ st.current_trade.isSome = true

/-- A well-formed comparison condition: it carries a comparison operator and
a nonempty bound variable name.  Conditions produced by the strategy-creation
layer always have this shape (the empty name would make the source's
sanitizer raise, see `sanitizeVar`). -/
def wfCond (c : Condition) : Prop :=
  (∃ cmp, c.comparison = some cmp) ∧ (∃ v, c.var = some v ∧ v ≠ "")

/-- Concrete condition in the shape of the repository's example strategy
(part_007 lines 10-21): SMA(20) compared with `<=` against threshold 205,
bound to variable `sma`. -/
def smaCond : Condition :=
  { indicator := some "SMA", comparison := some "<=", var := some "sma",
    threshold := some 205 }

/-- Concrete condition whose comparison is false on `demoBar`. -/
def rsiCond : Condition :=
  { indicator := some "RSI", comparison := some ">", var := some "rsi",
    threshold := some 50 }

/-- Concrete condition bound to a variable name containing a space, so the
exact lookup fails and the sanitized lookup (`macd_signal`) succeeds. -/
def macdCond : Condition :=
  { indicator := some "MACD", comparison := some ">", var := some "macd signal",
    threshold := some 3 }

/-- Concrete condition bound to a variable absent from `demoBar` under both
its exact name and its sanitized name (`rsi_x`). -/
def missingCond : Condition :=
  { indicator := some "RSI", comparison := some ">", var := some "rsi x",
    threshold := some 1 }

/-- Concrete condition whose bound variable name `123 bad` is not a valid
Python identifier. -/
def badVarCondition : Condition :=
  { indicator := some "SMA", comparison := some "<=", var := some "123 bad",
    threshold := some 205 }

/-- Concrete bar used by the witnesses: the `sma` condition compares true on
it, the `rsi` condition compares false, and `macd_signal` is present only
under its sanitized name. -/
def demoBar : Bar :=
  { popen := 100, close := 100,
    lines := [("sma", .num 200), ("rsi", .num 40), ("macd_signal", .num 5)] }

/-! ### Helper lemmas -/

/-- The boolean returned by `_evaluate_exit_conditions` is exactly the
definedness of the reason-labelled exit-condition decision. -/
theorem evalExit_fst_iff (cb : ℕ) (eb : Option ℕ) (xs : List Condition) (bar : Bar) :
    (_evaluate_exit_conditions cb eb xs bar).1 = (exitCondDecision cb eb xs bar).isSome := by
  unfold _evaluate_exit_conditions exitCondDecision
  by_cases hec : (evalTrace "exit" bar xs).any (·.result) = true
  · simp [hec]
  · by_cases hm : 20 < barsInPosition cb eb
    · simp [hec, hm]
    · simp [hec, hm]

/-- The two strategy-direction strings are distinct. -/
theorem sell_ne_buy : ("sell" : String) ≠ "buy" := by decide

/-- Unfolding of `evalTrace` on a cons cell. -/
theorem evalTrace_cons (ctype : String) (bar : Bar) (c : Condition) (conds : List Condition) :
    evalTrace ctype bar (c :: conds) = condTrace ctype bar c ++ evalTrace ctype bar conds := by
  simp [evalTrace]

/-- The trace of a concatenated condition list splits accordingly. -/
theorem evalTrace_append (ctype : String) (bar : Bar) (l1 l2 : List Condition) :
    evalTrace ctype bar (l1 ++ l2) = evalTrace ctype bar l1 ++ evalTrace ctype bar l2 := by
  simp [evalTrace]

/-- The recorded entries of a single condition OR to exactly its boolean
outcome (skipped conditions contribute nothing and count false). -/
theorem condTrace_any (ctype : String) (bar : Bar) (c : Condition) :
    (condTrace ctype bar c).any (·.result) = condResult bar c := by
  simp only [condTrace, condResult]
  rcases hc : c.comparison with _ | cmp
  · rfl
  · rcases hv : c.var with _ | v
    · rfl
    · rcases h1 : lookupLine bar v with _ | x
      · rcases h2 : lookupLine bar (sanitizeVar v) with _ | x <;> simp [h1, h2]
      · simp [h1]

/-- The OR over a full trace equals the OR of the conditions' individual
outcomes. -/
theorem evalTrace_any (ctype : String) (bar : Bar) :
    ∀ conds : List Condition,
      (evalTrace ctype bar conds).any (·.result) = conds.any (fun c => condResult bar c) := by
  intro conds
  induction conds with
  | nil => rfl
  | cons a t ih =>
    rw [evalTrace_cons, List.any_append, condTrace_any, List.any_cons, ih]

/-- A condition with a comparison operator and a bound variable records
exactly one trace entry, whose result is the condition's boolean outcome. -/
theorem condTrace_singleton (ctype : String) (bar : Bar) (c : Condition) (cmp v : String)
    (hc : c.comparison = some cmp) (hv : c.var = some v) :
    ∃ e : TraceEntry, condTrace ctype bar c = [e] ∧ e.result = condResult bar c ∧
      e.var = v := by
  simp only [condTrace, condResult, hc, hv]
  rcases h1 : lookupLine bar v with _ | x
  · rcases h2 : lookupLine bar (sanitizeVar v) with _ | x
    · exact ⟨_, rfl, rfl, rfl⟩
    · exact ⟨_, rfl, rfl, rfl⟩
  · exact ⟨_, rfl, rfl, rfl⟩

/-- For a list of well-formed conditions the trace has one entry per
condition, positionally, each carrying that condition's outcome. -/
theorem evalTrace_wf_pointwise (ctype : String) (bar : Bar) :
    ∀ conds : List Condition, (∀ c ∈ conds, wfCond c) →
      (evalTrace ctype bar conds).length = conds.length ∧
      ∀ i, i < conds.length → ∃ c e, conds[i]? = some c ∧
        (evalTrace ctype bar conds)[i]? = some e ∧ e.result = condResult bar c := by
  intro conds
  induction conds with
  | nil => intro _; exact ⟨rfl, fun i hi => absurd hi (by simp)⟩
  | cons a t ih =>
    intro hwf
    obtain ⟨⟨cmp, hcmp⟩, ⟨v, hv, _⟩⟩ := hwf a (List.mem_cons_self a t)
    obtain ⟨e, he, her, _⟩ := condTrace_singleton ctype bar a cmp v hcmp hv
    have iht := ih (fun c hc => hwf c (List.mem_cons_of_mem a hc))
    rw [evalTrace_cons, he]
    refine ⟨by simp [iht.1], fun i hi => ?_⟩
    cases i with
    | zero => exact ⟨a, e, by simp, by simp, her⟩
    | succ j =>
      have hj : j < t.length := by simpa using hi
      obtain ⟨c, e2, hgc, hge, hr⟩ := iht.2 j hj
      exact ⟨c, e2, by simpa using hgc, by simpa using hge, hr⟩

/-- A variable name carried by some condition and failing the identifier
check ends up in the skipped component of the initialization pass. -/
theorem initVarsAux_skipped_mem (v : String) (hbad : isPyIdentifier v = false) :
    ∀ l : List Condition, (∃ c ∈ l, c.var = some v) → v ∈ (initVarsAux l).2 := by
  intro l
  induction l with
  | nil => rintro ⟨c, hc, _⟩; simp at hc
  | cons a t ih =>
    rintro ⟨c, hc, hv⟩
    rcases List.mem_cons.mp hc with rfl | hmem
    · simp [initVarsAux, hv, hbad]
    · have hrec := ih ⟨c, hmem, hv⟩
      cases ha : a.var with
      | none => simpa [initVarsAux, ha] using hrec
      | some w =>
        by_cases hw : isPyIdentifier w <;> simp [initVarsAux, ha, hw, hrec]

/-- Every variable name in the initialized component of the initialization
pass passed the identifier check. -/
theorem initVarsAux_initialized_ident (v : String) :
    ∀ l : List Condition, v ∈ (initVarsAux l).1 → isPyIdentifier v = true := by
  intro l
  induction l with
  | nil => intro h; simp [initVarsAux] at h
  | cons a t ih =>
    intro h
    cases ha : a.var with
    | none =>
      rw [show initVarsAux (a :: t) = initVarsAux t by simp [initVarsAux, ha]] at h
      exact ih h
    | some w =>
      by_cases hw : isPyIdentifier w
      · simp only [initVarsAux, ha, if_pos hw] at h
        rcases List.mem_cons.mp h with rfl | h
        · exact hw
        · exact ih h
      · simp only [initVarsAux, ha, if_neg hw] at h
        exact ih h

/-- With no pending order the broker phase does nothing. -/
theorem brokerStep_no_order (s : String) (i : ℕ) (st : StratState) (b : Bar)
    (h : st.order = none) : brokerStep s i st b = st := by
  simp [brokerStep, h]

/-- The broker phase never touches the equity curve. -/
theorem brokerStep_equity (s : String) (i : ℕ) (st : StratState) (b : Bar) :
    (brokerStep s i st b).equity_curve = st.equity_curve := by
  cases h : st.order with
  | none => simp [brokerStep, h]
  | some po =>
    cases po with
    | buy s1 => simp [brokerStep, h]
    | sell s1 =>
      cases hb : st.buyprice <;> cases hc : st.current_trade <;>
        simp [brokerStep, h, hb, hc]

/-- The broker phase never touches the Sharpe ratio. -/
theorem brokerStep_sharpe (s : String) (i : ℕ) (st : StratState) (b : Bar) :
    (brokerStep s i st b).sharpe = st.sharpe := by
  cases h : st.order with
  | none => simp [brokerStep, h]
  | some po =>
    cases po with
    | buy s1 => simp [brokerStep, h]
    | sell s1 =>
      cases hb : st.buyprice <;> cases hc : st.current_trade <;>
        simp [brokerStep, h, hb, hc]

/-- The guarded Sharpe computation is finite on every returns series. -/
theorem sharpeGuarded_finite (rs : List ℚ) : (sharpeGuarded rs).isFinite = true := by
  unfold sharpeGuarded sharpeRaw fdiv
  by_cases h : 0 < npVar rs
  · rw [if_pos h, if_neg h.ne']
    rfl
  · rw [if_neg h]
    rfl

/-- One Sharpe update preserves finiteness. -/
theorem sharpeStep_finite (prev : FloatVal) (rs : List ℚ)
    (h : prev.isFinite = true) : (sharpeStep prev rs).isFinite = true := by
  unfold sharpeStep
  split
  · exact sharpeGuarded_finite rs
  · exact h

/-- With no pending order, `next` appends exactly one equity point,
whatever else it does on the bar. -/
theorem nextStep_equity_length (stype : String) (ec xc : List Condition) (sl tp : ℚ)
    (i : ℕ) (st : StratState) (b : Bar) (h : st.order = none) :
    (nextStep stype ec xc sl tp i st b).equity_curve.length =
      st.equity_curve.length + 1 := by
  unfold nextStep
  rw [h]
  simp only [Option.isSome_none, Bool.false_eq_true, if_false]
  by_cases hp : st.position = 0
  · rcases he2 : (_evaluate_entry_conditions i ec b).2 with _ | tr <;>
    by_cases he1 : (_evaluate_entry_conditions i ec b).1 = true <;>
    simp [hp, he1, he2]
  · rcases hb : st.buyprice with _ | entry
    · by_cases hx : (_evaluate_exit_conditions i st.position_entry_bar xc b).1 = true <;>
      simp [hp, hb, hx]
    · by_cases h1 : tp > 0 ∧ profit_pct stype entry b.close ≥ tp
      · simp [hp, hb, h1]
      · by_cases h2 : sl > 0 ∧ loss_pct stype entry b.close ≥ sl
        · simp [hp, hb, h1, h2]
        · by_cases hx : (_evaluate_exit_conditions i st.position_entry_bar xc b).1 = true <;>
          simp [hp, hb, h1, h2, hx]

/-- With no pending order, `next` leaves the Sharpe field finite whenever it
was finite before the bar. -/
theorem nextStep_sharpe_finite (stype : String) (ec xc : List Condition) (sl tp : ℚ)
    (i : ℕ) (st : StratState) (b : Bar) (h : st.sharpe.isFinite = true) :
    ((nextStep stype ec xc sl tp i st b).sharpe).isFinite = true := by
  unfold nextStep
  by_cases ho : st.order.isSome
  · simpa [ho] using h
  · have hsr := sharpeStep_finite st.sharpe
      (st.returns ++ [match st.equity_curve.getLast? with
        | some prev => brokerValue st b / prev - 1
        | none => 0]) h
    simp only [ho, Bool.false_eq_true, if_false]
    by_cases hp : st.position = 0
    · rcases he2 : (_evaluate_entry_conditions i ec b).2 with _ | tr <;>
      by_cases he1 : (_evaluate_entry_conditions i ec b).1 = true <;>
      simpa [hp, he1, he2] using hsr
    · rcases hb : st.buyprice with _ | entry
      · by_cases hx : (_evaluate_exit_conditions i st.position_entry_bar xc b).1 = true <;>
        simpa [hp, hb, hx] using hsr
      · by_cases h1 : tp > 0 ∧ profit_pct stype entry b.close ≥ tp
        · simpa [hp, hb, h1] using hsr
        · by_cases h2 : sl > 0 ∧ loss_pct stype entry b.close ≥ sl
          · simpa [hp, hb, h1, h2] using hsr
          · by_cases hx : (_evaluate_exit_conditions i st.position_entry_bar xc b).1 = true <;>
            simpa [hp, hb, h1, h2, hx] using hsr

/-- A run segment starting from a state whose exception is already raised
does nothing: the engine loop has stopped. -/
theorem runAux_error (stype : String) (ec xc : List Condition) (sl tp : ℚ) :
    ∀ (l : List Bar) (st : StratState) (idx : ℕ), st.error.isSome = true →
      runAux stype ec xc sl tp st idx l = st := by
  intro l
  cases l with
  | nil => intro st idx _; rfl
  | cons b t =>
    intro st idx h
    simp only [runAux]
    rw [if_pos h]

/-- One healthy loop iteration: with no exception before the bar and none
raised by the broker phase, the bar is processed by `notify_order` followed
by `next`. -/
theorem runAux_cons_ok (stype : String) (ec xc : List Condition) (sl tp : ℚ)
    (st : StratState) (idx : ℕ) (b : Bar) (rest : List Bar)
    (he : st.error = none) (hb : (brokerStep stype (idx + 1) st b).error = none) :
    runAux stype ec xc sl tp st idx (b :: rest) =
      runAux stype ec xc sl tp
        (nextStep stype ec xc sl tp (idx + 1) (brokerStep stype (idx + 1) st b) b)
        (idx + 1) rest := by
  simp only [runAux]
  rw [if_neg (by simp [he]), if_neg (by simp [hb])]

/-- Splitting a run over a concatenation of bar segments. -/
theorem runAux_append (stype : String) (ec xc : List Condition) (sl tp : ℚ) :
    ∀ (l1 l2 : List Bar) (st : StratState) (idx : ℕ),
      runAux stype ec xc sl tp st idx (l1 ++ l2) =
        runAux stype ec xc sl tp (runAux stype ec xc sl tp st idx l1)
          (idx + l1.length) l2 := by
  intro l1
  induction l1 with
  | nil => intro l2 st idx; simp [runAux]
  | cons b t ih =>
    intro l2 st idx
    rw [List.cons_append]
    by_cases h0 : st.error.isSome = true
    · rw [runAux_error stype ec xc sl tp (b :: (t ++ l2)) st idx h0,
        runAux_error stype ec xc sl tp (b :: t) st idx h0,
        runAux_error stype ec xc sl tp l2 st _ h0]
    · have he : st.error = none := by
        cases h : st.error
        · rfl
        · rw [h] at h0; simp at h0
      by_cases h1 : (brokerStep stype (idx + 1) st b).error.isSome = true
      · have hl : runAux stype ec xc sl tp st idx (b :: (t ++ l2)) =
            brokerStep stype (idx + 1) st b := by
          simp only [runAux]
          rw [if_neg (by simp [he]), if_pos h1]
        have hr : runAux stype ec xc sl tp st idx (b :: t) =
            brokerStep stype (idx + 1) st b := by
          simp only [runAux]
          rw [if_neg (by simp [he]), if_pos h1]
        rw [hl, hr, runAux_error stype ec xc sl tp l2 _ _ h1]
      · have hb : (brokerStep stype (idx + 1) st b).error = none := by
          cases h : (brokerStep stype (idx + 1) st b).error
          · rfl
          · rw [h] at h1; simp at h1
        rw [runAux_cons_ok stype ec xc sl tp st idx b (t ++ l2) he hb,
          runAux_cons_ok stype ec xc sl tp st idx b t he hb, ih]
        have : idx + 1 + t.length = idx + (t.length + 1) := by omega
        rw [this]
        rfl

/-- The broker phase preserves the buy-run invariant facts needed by the
following `next` call: no exception is raised (the pending sell, if any, is
a closing order with its entry data available), the pending order is cleared,
the equity curve is untouched, and an open position keeps its entry data. -/
theorem brokerStep_buy_inv (i : ℕ) (st : StratState) (b : Bar) (h : buyRunInv st) :
    (brokerStep "buy" i st b).order = none
  ∧ (brokerStep "buy" i st b).error = none
  ∧ (brokerStep "buy" i st b).equity_curve = st.equity_curve
  ∧ ((brokerStep "buy" i st b).position ≠ 0 →
      (brokerStep "buy" i st b).buyprice.isSome = true ∧
      (brokerStep "buy" i st b).current_trade.isSome = true) := by
  obtain ⟨he, hp, hso⟩ := h
  cases hor : st.order with
  | none => exact ⟨by simp [brokerStep, hor, hor], by simp [brokerStep, hor, he],
      by simp [brokerStep, hor], by simpa [brokerStep, hor] using hp⟩
  | some po =>
    cases po with
    | buy s1 => exact ⟨by simp [brokerStep, hor], by simp [brokerStep, hor, he],
        by simp [brokerStep, hor], by simp [brokerStep, hor]⟩
    | sell s1 =>
      obtain ⟨hs, hbs, hcs⟩ := hso s1 hor
      rcases hbv : st.buyprice with _ | bp
      · rw [hbv] at hbs; simp at hbs
      · rcases hcv : st.current_trade with _ | ct
        · rw [hcv] at hcs; simp at hcs
        · refine ⟨by simp [brokerStep, hor, hbv, hcv],
            by simp [brokerStep, hor, hbv, hcv, he],
            by simp [brokerStep, hor, hbv, hcv], fun hpos => absurd ?_ hpos⟩
          simp [brokerStep, hor, hbv, hcv, hs, sub_self]

/-- `next` re-establishes the buy-run invariant from the facts the broker
phase guarantees: any order it creates while flat is a buy, and any sell it
creates closes the open position, whose entry price and open trade record
are set. -/
theorem nextStep_buy_inv (ec xc : List Condition) (sl tp : ℚ) (i : ℕ)
    (st : StratState) (b : Bar) (ho : st.order = none) (he : st.error = none)
    (hp : st.position ≠ 0 → st.buyprice.isSome = true ∧ st.current_trade.isSome = true) :
    buyRunInv (nextStep "buy" ec xc sl tp i st b) := by
  unfold nextStep
  rw [ho]
  simp only [Option.isSome_none, Bool.false_eq_true, if_false]
  by_cases hpz : st.position = 0
  · rcases he2 : (_evaluate_entry_conditions i ec b).2 with _ | tr <;>
    by_cases he1 : (_evaluate_entry_conditions i ec b).1 = true <;>
    simp [buyRunInv, hpz, he1, he2, he, ho]
  · obtain ⟨hbs, hcs⟩ := hp hpz
    rcases hbv : st.buyprice with _ | entry
    · rw [hbv] at hbs; simp at hbs
    · by_cases h1 : tp > 0 ∧ profit_pct "buy" entry b.close ≥ tp
      · simp [buyRunInv, hpz, hbv, h1, he, hbs, hcs]
      · by_cases h2 : sl > 0 ∧ loss_pct "buy" entry b.close ≥ sl
        · simp [buyRunInv, hpz, hbv, h1, h2, he, hbs, hcs]
        · by_cases hx : (_evaluate_exit_conditions i st.position_entry_bar xc b).1 = true <;>
          simp [buyRunInv, hpz, hbv, h1, h2, hx, he, ho, hbs, hcs]

/-- The initial strategy state satisfies the buy-run invariant. -/
theorem initState_buyRunInv (cash : ℚ) : buyRunInv (initState cash) := by
  refine ⟨rfl, fun h => absurd rfl h, fun s hs => ?_⟩
  simp [initState] at hs

/-- A buy-direction run segment preserves the invariant and adds exactly one
equity point per bar. -/
theorem runAux_buy_inv (ec xc : List Condition) (sl tp : ℚ) :
    ∀ (bars : List Bar) (st : StratState) (idx : ℕ), buyRunInv st →
      buyRunInv (runAux "buy" ec xc sl tp st idx bars)
    ∧ (runAux "buy" ec xc sl tp st idx bars).equity_curve.length =
        st.equity_curve.length + bars.length := by
  intro bars
  induction bars with
  | nil => intro st idx h; exact ⟨h, by simp [runAux]⟩
  | cons b rest ih =>
    intro st idx h
    have hb := brokerStep_buy_inv (idx + 1) st b h
    rw [runAux_cons_ok "buy" ec xc sl tp st idx b rest h.1 hb.2.1]
    have hInv2 := nextStep_buy_inv ec xc sl tp (idx + 1) _ b hb.1 hb.2.1 hb.2.2.2
    obtain ⟨ih1, ih2⟩ := ih
      (nextStep "buy" ec xc sl tp (idx + 1) (brokerStep "buy" (idx + 1) st b) b)
      (idx + 1) hInv2
    refine ⟨ih1, ?_⟩
    rw [ih2, nextStep_equity_length "buy" ec xc sl tp (idx + 1) _ b hb.1,
      brokerStep_equity]
    simp only [List.length_cons]
    omega

/-- Over any run segment — including runs that abort on an exception —
finiteness of the Sharpe field is preserved. -/
theorem runAux_sharpe_finite (stype : String) (ec xc : List Condition) (sl tp : ℚ) :
    ∀ (bars : List Bar) (st : StratState) (idx : ℕ), st.sharpe.isFinite = true →
      ((runAux stype ec xc sl tp st idx bars).sharpe).isFinite = true := by
  intro bars
  induction bars with
  | nil => intro st idx h; simpa [runAux] using h
  | cons b rest ih =>
    intro st idx h
    by_cases h0 : st.error.isSome = true
    · rw [runAux_error stype ec xc sl tp (b :: rest) st idx h0]
      exact h
    · by_cases h1 : (brokerStep stype (idx + 1) st b).error.isSome = true
      · have hl : runAux stype ec xc sl tp st idx (b :: rest) =
            brokerStep stype (idx + 1) st b := by
          simp only [runAux]
          rw [if_neg h0, if_pos h1]
        rw [hl, brokerStep_sharpe]
        exact h
      · have he : st.error = none := by
          cases hcase : st.error
          · rfl
          · rw [hcase] at h0; simp at h0
        have hbe : (brokerStep stype (idx + 1) st b).error = none := by
          cases hcase : (brokerStep stype (idx + 1) st b).error
          · rfl
          · rw [hcase] at h1; simp at h1
        rw [runAux_cons_ok stype ec xc sl tp st idx b rest he hbe]
        exact ih _ _ (nextStep_sharpe_finite stype ec xc sl tp (idx + 1) _ b
          (by rw [brokerStep_sharpe]; exact h))

/-- A warm-up bar (1-based count below 30) processed from a healthy flat
state leaves the state flat and healthy and appends one equity point. -/
theorem nextStep_warmup_flat (stype : String) (ec xc : List Condition) (sl tp : ℚ)
    (i : ℕ) (st : StratState) (b : Bar) (hfc : flatClean st) (hi : i < 30) :
    flatClean (nextStep stype ec xc sl tp i st b)
  ∧ (nextStep stype ec xc sl tp i st b).equity_curve.length =
      st.equity_curve.length + 1 := by
  obtain ⟨ho, he, hp, hb, hct⟩ := hfc
  have heval : _evaluate_entry_conditions i ec b = (false, none) := by
    simp [_evaluate_entry_conditions, hi]
  unfold nextStep
  rw [ho]
  simp [flatClean, heval, hp, ho, he, hb, hct]

/-- A whole warm-up segment keeps the state flat and healthy, one equity
point per bar. -/
theorem runAux_warmup_flat (stype : String) (ec xc : List Condition) (sl tp : ℚ)
    (b : Bar) : ∀ (k : ℕ) (st : StratState) (idx : ℕ), flatClean st → idx + k < 30 →
      flatClean (runAux stype ec xc sl tp st idx (List.replicate k b))
    ∧ (runAux stype ec xc sl tp st idx (List.replicate k b)).equity_curve.length =
        st.equity_curve.length + k := by
  intro k
  induction k with
  | zero => intro st idx h _; exact ⟨h, by simp [runAux]⟩
  | succ n ih =>
    intro st idx h hk
    rw [List.replicate_succ]
    have hbs : brokerStep stype (idx + 1) st b = st := brokerStep_no_order _ _ _ _ h.1
    rw [runAux_cons_ok stype ec xc sl tp st idx b (List.replicate n b) h.2.1
      (by rw [hbs]; exact h.2.1), hbs]
    have hW := nextStep_warmup_flat stype ec xc sl tp (idx + 1) st b h (by omega)
    obtain ⟨ih1, ih2⟩ := ih (nextStep stype ec xc sl tp (idx + 1) st b) (idx + 1)
      hW.1 (by omega)
    refine ⟨ih1, ?_⟩
    rw [ih2, hW.2]
    omega

/-- Bar 30 of a sell-direction run whose entry condition holds: from a
healthy flat state, `next` evaluates the entry to true and creates a sell
order of size 1 (part_007 lines 395-397), with `buyprice` and
`current_trade` still unset — `__init__` never creates them. -/
theorem sell_entry_step (xc : List Condition) (sl tp : ℚ) (st : StratState)
    (hfc : flatClean st) :
    (nextStep "sell" [smaCond] xc sl tp 30 st demoBar).order =
      some (PendingOrder.sell 1)
  ∧ (nextStep "sell" [smaCond] xc sl tp 30 st demoBar).error = none
  ∧ (nextStep "sell" [smaCond] xc sl tp 30 st demoBar).buyprice = none
  ∧ (nextStep "sell" [smaCond] xc sl tp 30 st demoBar).current_trade = none
  ∧ (nextStep "sell" [smaCond] xc sl tp 30 st demoBar).equity_curve.length =
      st.equity_curve.length + 1 := by
  obtain ⟨ho, he, hp, hb, hct⟩ := hfc
  have he1 : (_evaluate_entry_conditions 30 [smaCond] demoBar).1 = true := by decide
  unfold nextStep
  rw [ho]
  rcases he2 : (_evaluate_entry_conditions 30 [smaCond] demoBar).2 with _ | tr <;>
  simp [hp, he, hb, hct, he1, he2, if_neg sell_ne_buy]

/-- The fill of that entry sell: `notify_order` routes the completed sell to
its exit branch, which dereferences the never-created `current_trade` and
raises AttributeError (part_007 line 281); the run aborts on that bar with
the equity curve untouched. -/
theorem sell_crash_step (ec xc : List Condition) (sl tp : ℚ) (st : StratState)
    (i : ℕ) (b : Bar) (ho : st.order = some (PendingOrder.sell 1))
    (hct : st.current_trade = none) (he : st.error = none) :
    runAux "sell" ec xc sl tp st i [b] = brokerStep "sell" (i + 1) st b
  ∧ (brokerStep "sell" (i + 1) st b).error = some "AttributeError: current_trade"
  ∧ (brokerStep "sell" (i + 1) st b).equity_curve = st.equity_curve := by
  have hbr : (brokerStep "sell" (i + 1) st b).error =
      some "AttributeError: current_trade"
    ∧ (brokerStep "sell" (i + 1) st b).equity_curve = st.equity_curve := by
    cases hb : st.buyprice <;> simp [brokerStep, ho, hct, hb]
  refine ⟨?_, hbr.1, hbr.2⟩
  simp only [runAux]
  rw [if_neg (by simp [he]), if_pos (by simp [hbr.1])]

/-! ### Claim theorems -/

/-- C1: while a position is open, the per-bar exit decision applies the fixed
precedence target-profit, then stop-loss, then the OR-combined exit-condition
list, then the max-holding-period fallback; the first matching rule wins and
at most one exit reason is produced per bar (the decision is a single
`Option ExitReason`); in particular, on a bar where the target-profit
threshold is crossed the decision is `TargetProfit` — never `StopLoss` —
regardless of the stop-loss condition. -/
theorem exit_decision_precedence (stype : String) (sl tp : ℚ) (xconds : List Condition)
    (bar : Bar) (entry : ℚ) (cb : ℕ) (eb : Option ℕ) :
    (exitDecision stype sl tp xconds bar (some entry) cb eb = some .TargetProfit ↔
       tpTriggered stype tp entry bar.close)
  ∧ (exitDecision stype sl tp xconds bar (some entry) cb eb = some .StopLoss ↔
       ¬ tpTriggered stype tp entry bar.close ∧ slTriggered stype sl entry bar.close)
  ∧ (exitDecision stype sl tp xconds bar (some entry) cb eb = some .ExitCondition ↔
       ¬ tpTriggered stype tp entry bar.close ∧ ¬ slTriggered stype sl entry bar.close ∧
       ecTriggered xconds bar)
  ∧ (exitDecision stype sl tp xconds bar (some entry) cb eb = some .MaxHoldingPeriod ↔
       ¬ tpTriggered stype tp entry bar.close ∧ ¬ slTriggered stype sl entry bar.close ∧
       ¬ ecTriggered xconds bar ∧ mhTriggered cb eb)
  ∧ (tpTriggered stype tp entry bar.close →
       exitDecision stype sl tp xconds bar (some entry) cb eb = some .TargetProfit)
  ∧ (_evaluate_exit_conditions cb eb xconds bar).1 = (exitCondDecision cb eb xconds bar).isSome := by
  refine ⟨?_, ?_, ?_, ?_, ?_, evalExit_fst_iff cb eb xconds bar⟩ <;>
  · simp only [exitDecision, exitCondDecision, tpTriggered, slTriggered, ecTriggered,
      mhTriggered]
    by_cases h1 : tp > 0 ∧ profit_pct stype entry bar.close ≥ tp <;>
    by_cases h2 : sl > 0 ∧ loss_pct stype entry bar.close ≥ sl <;>
    by_cases h3 : (evalTrace "exit" bar xconds).any (·.result) = true <;>
    by_cases h4 : 20 < barsInPosition cb eb <;>
    simp [h1, h2, h3, h4]

/-- Witness for C1: a long position entered at 100 with the close at 130
crosses the 25% target and the decision is `TargetProfit`. -/
theorem exit_decision_precedence_witness :
    exitDecision "buy" 5 25 [] { close := 130 } (some 100) 40 (some 35) =
      some .TargetProfit := by
  have h := exit_decision_precedence "buy" 5 25 [] { close := 130 } 100 40 (some 35)
  exact h.2.2.2.2.1 (by constructor <;> norm_num [profit_pct])

/-- C5: with no target-profit, stop-loss or exit-condition trigger, the
duration fallback fires exactly when `bars_in_position` exceeds the fixed
max-holding-period of 20, so the position closes with reason
`MaxHoldingPeriod` on exactly bar `entry_bar + 20 + 1`, and on no earlier
bar. -/
theorem max_holding_period_exact (stype : String) (sl tp : ℚ) (xconds : List Condition)
    (bar : Bar) (entry : ℚ) (e cb : ℕ)
    (hTP : ¬ tpTriggered stype tp entry bar.close)
    (hSL : ¬ slTriggered stype sl entry bar.close)
    (hEC : ¬ ecTriggered xconds bar) :
    exitDecision stype sl tp xconds bar (some entry) cb (some e) =
      (if e + 20 + 1 ≤ cb then some .MaxHoldingPeriod else none)
  ∧ (cb = e + 20 + 1 →
      exitDecision stype sl tp xconds bar (some entry) cb (some e) = some .MaxHoldingPeriod)
  ∧ (cb < e + 20 + 1 →
      exitDecision stype sl tp xconds bar (some entry) cb (some e) = none) := by
  have hbar : (20 < barsInPosition cb (some e)) ↔ e + 20 + 1 ≤ cb := by
    simp only [barsInPosition]
    omega
  have h1 : exitDecision stype sl tp xconds bar (some entry) cb (some e) =
      (if e + 20 + 1 ≤ cb then some .MaxHoldingPeriod else none) := by
    simp only [exitDecision, exitCondDecision, tpTriggered, slTriggered, ecTriggered,
      mhTriggered] at *
    rw [if_neg hTP, if_neg hSL, if_neg hEC]
    by_cases hc : e + 20 + 1 ≤ cb
    · rw [if_pos (hbar.mpr hc), if_pos hc]
    · rw [if_neg (fun hx => hc (hbar.mp hx)), if_neg hc]
  refine ⟨h1, fun hc => ?_, fun hc => ?_⟩
  · rw [h1, if_pos (by omega)]
  · rw [h1, if_neg (by omega)]

/-- Witness for C5: position entered at bar 5, flat prices, no exit
conditions — the decision is `MaxHoldingPeriod` at bar 26 = 5 + 20 + 1 and
`none` at bar 25. -/
theorem max_holding_period_exact_witness :
    exitDecision "buy" 5 25 [] { popen := 100, close := 100 } (some 100) 26 (some 5) =
      some .MaxHoldingPeriod
  ∧ exitDecision "buy" 5 25 [] { popen := 100, close := 100 } (some 100) 25 (some 5) =
      none := by
  constructor
  · exact (max_holding_period_exact "buy" 5 25 [] { popen := 100, close := 100 } 100 5 26
      (by norm_num [tpTriggered, profit_pct]) (by norm_num [slTriggered, loss_pct])
      (by norm_num [ecTriggered, evalTrace])).2.1 rfl
  · exact (max_holding_period_exact "buy" 5 25 [] { popen := 100, close := 100 } 100 5 25
      (by norm_num [tpTriggered, profit_pct]) (by norm_num [slTriggered, loss_pct])
      (by norm_num [ecTriggered, evalTrace])).2.2 (by norm_num)

/-- C4 counterexample: for a short position entered at 100 with the close at
50, the RiskManager's unrealized profit percentage is `(1 - 50/100)*100 = 50`,
not the claimed `(entry/close - 1)*100 = 100`; and it differs from the
realized percent `trade_profit_pct` recorded on the trade at the same prices
(which is 100), so the two are not computed by the same formulas. -/
theorem short_profit_formula_cex :
    profit_pct "sell" 100 50 = 50
  ∧ ((100 : ℚ) / 50 - 1) * 100 = 100
  ∧ profit_pct "sell" 100 50 ≠ ((100 : ℚ) / 50 - 1) * 100
  ∧ trade_profit_pct "sell" 100 50 = 100
  ∧ profit_pct "sell" 100 50 ≠ trade_profit_pct "sell" 100 50 := by
  simp only [profit_pct, trade_profit_pct, if_neg sell_ne_buy]
  norm_num

/-- C4 amended: the RiskManager's in-bar unrealized profit percent is
`(close/entry - 1)*100` for a long and `(1 - close/entry)*100` for a short,
while the realized percent recorded on the Trade is `(exit/entry - 1)*100`
for a long and `(entry/exit - 1)*100` for a short; the two computations agree
for longs, and for shorts they agree only when exit price equals entry
price. -/
theorem profit_pct_formulas (e p : ℚ) (he : e ≠ 0) (hp : p ≠ 0) :
    profit_pct "buy" e p = (p / e - 1) * 100
  ∧ profit_pct "sell" e p = (1 - p / e) * 100
  ∧ trade_profit_pct "buy" e p = (p / e - 1) * 100
  ∧ trade_profit_pct "sell" e p = (e / p - 1) * 100
  ∧ profit_pct "buy" e p = trade_profit_pct "buy" e p
  ∧ (profit_pct "sell" e p = trade_profit_pct "sell" e p ↔ e = p) := by
  refine ⟨by simp [profit_pct], by simp [profit_pct, if_neg sell_ne_buy],
    by simp [trade_profit_pct], by simp [trade_profit_pct, if_neg sell_ne_buy],
    by simp [profit_pct, trade_profit_pct], ?_⟩
  simp only [profit_pct, trade_profit_pct, if_neg sell_ne_buy]
  constructor
  · intro h
    have h1 : 1 - p / e = e / p - 1 := by linarith
    have h2 : (1 - p / e) * (e * p) = (e / p - 1) * (e * p) := by rw [h1]
    field_simp at h2
    rcases h2 with h2 | h2
    · exact h2.symm
    · have h3 : e * p * (e - p) = 0 := by linear_combination h2
      rcases mul_eq_zero.mp h3 with h4 | h4
      · rcases mul_eq_zero.mp h4 with h5 | h5
        · exact absurd h5 he
        · exact absurd h5 hp
      · linarith
  · intro h
    subst h
    rw [div_self he]

/-- Witness for the amended C4 at entry 100 and close 50: the long formulas
agree, and the short formulas agree only when entry equals exit — which 100
and 50 are not. -/
theorem profit_pct_formulas_witness :
    profit_pct "buy" 100 50 = trade_profit_pct "buy" 100 50
  ∧ (profit_pct "sell" 100 50 = trade_profit_pct "sell" 100 50 ↔ (100 : ℚ) = 50) := by
  have h := profit_pct_formulas 100 50 (by norm_num) (by norm_num)
  exact ⟨h.2.2.2.2.1, h.2.2.2.2.2⟩

/-- C3 counterexample: a strategy whose condition binds the non-identifier
variable name `123 bad` initializes without any error — the outcome is `ok`
with the name merely skipped (and a warning printed), no `ValidationError` of
any kind is surfaced, and at evaluation time the condition is handled as a
missing variable (evaluates false with a diagnostic trace entry) rather than
failing before simulation. -/
theorem invalid_variable_no_error_cex :
    initVariables [badVarCondition] [] = .ok [] ["123 bad"]
  ∧ (initVariables [badVarCondition] []).isOk = true
  ∧ condResult { lines := [] } badVarCondition = false
  ∧ condTrace "entry" { lines := [] } badVarCondition =
      [{ ctype := "entry", var := "123 bad", value := none, comparison := "<=",
         threshold := 205, result := false,
         error := some "Variable not found in data feed" }] := by
  refine ⟨by decide, by decide, by decide, by decide⟩

/-- C3 amended: strategy initialization never fails on a condition whose
bound variable name is not a valid identifier — it always completes with
`ok`; every non-identifier variable name appearing in the entry or exit
condition lists is recorded as skipped (after a logged warning) and is never
initialized as a strategy attribute.  No `ValidationError` is produced and
nothing is surfaced to the caller. -/
theorem invalid_variable_skipped (ec xc : List Condition) :
    (initVariables ec xc).isOk = true
  ∧ ∀ c ∈ ec ++ xc, ∀ v, c.var = some v → isPyIdentifier v = false →
      v ∈ (initVarsAux (ec ++ xc)).2 ∧ v ∉ (initVarsAux (ec ++ xc)).1 := by
  refine ⟨rfl, fun c hc v hv hbad => ⟨?_, fun hmem => ?_⟩⟩
  · exact initVarsAux_skipped_mem v hbad (ec ++ xc) ⟨c, hc, hv⟩
  · have := initVarsAux_initialized_ident v (ec ++ xc) hmem
    rw [this] at hbad
    exact absurd hbad (by simp)

/-- Witness for the amended C3 on the concrete bad-variable strategy. -/
theorem invalid_variable_skipped_witness :
    (initVariables [badVarCondition] []).isOk = true
  ∧ "123 bad" ∈ (initVarsAux ([badVarCondition] ++ [])).2
  ∧ "123 bad" ∉ (initVarsAux ([badVarCondition] ++ [])).1 := by
  have h := invalid_variable_skipped [badVarCondition] []
  have hk := h.2 badVarCondition (by simp) "123 bad" rfl (by decide)
  exact ⟨h.1, hk.1, hk.2⟩

/-- C8: post warm-up, the entry evaluator's boolean decision is the OR of
the individual condition outcomes — true iff at least one comparison is
true — and evaluation is not short-circuited: the recorded trace is the
full trace with one entry per (well-formed) condition, positionally, each
entry carrying that condition's own result even when an earlier condition
already evaluated true. -/
theorem or_combined_full_eval (bar : Bar) (conds : List Condition) (n : ℕ)
    (hn : 30 ≤ n) (hwf : ∀ c ∈ conds, wfCond c) :
    (_evaluate_entry_conditions n conds bar).1 = conds.any (fun c => condResult bar c)
  ∧ (_evaluate_entry_conditions n conds bar).2 = some (evalTrace "entry" bar conds)
  ∧ (evalTrace "entry" bar conds).length = conds.length
  ∧ ∀ i, i < conds.length → ∃ c e, conds[i]? = some c ∧
      (evalTrace "entry" bar conds)[i]? = some e ∧ e.result = condResult bar c := by
  have hn2 : ¬ n < 30 := by omega
  have hpw := evalTrace_wf_pointwise "entry" bar conds hwf
  refine ⟨?_, ?_, hpw.1, hpw.2⟩
  · simp [_evaluate_entry_conditions, hn2, evalTrace_any]
  · simp [_evaluate_entry_conditions, hn2]

/-- Witness for C8: on `demoBar` the `sma` condition is true and the `rsi`
condition is false; the decision is true and both conditions are recorded. -/
theorem or_combined_full_eval_witness :
    (_evaluate_entry_conditions 30 [smaCond, rsiCond] demoBar).1 = true
  ∧ (evalTrace "entry" demoBar [smaCond, rsiCond]).length = 2 := by
  have h := or_combined_full_eval demoBar [smaCond, rsiCond] 30 (by norm_num)
    (by intro c hc
        rcases List.mem_cons.mp hc with rfl | hc
        · exact ⟨⟨"<=", rfl⟩, ⟨"sma", rfl, by decide⟩⟩
        · rcases List.mem_cons.mp hc with rfl | hc
          · exact ⟨⟨">", rfl⟩, ⟨"rsi", rfl, by decide⟩⟩
          · simp at hc)
  refine ⟨?_, h.2.2.1⟩
  rw [h.1]
  decide

/-- C10: when a condition's variable name is not found verbatim among the
bar's lines, the evaluator retries the lookup under the sanitized name
(each character that is neither alphanumeric nor underscore replaced by an
underscore, and `ind_` prefixed when the first character of the replaced
string is neither a letter nor an underscore); the condition is evaluated
against the sanitized column's value when that second lookup succeeds, and
is treated as missing only when both lookups fail.  The three concrete
equations pin the sanitization rule, including the case where the
replacement itself produces a leading underscore and no prefix is added. -/
theorem sanitized_lookup_fallback (bar : Bar) (c : Condition) (cmp v : String)
    (hc : c.comparison = some cmp) (hv : c.var = some v) (_hvne : v ≠ "") :
    (∀ x, lookupLine bar v = some x →
        condResult bar c = evalComparison cmp x (c.threshold.getD 0)
      ∧ condTrace "entry" bar c =
          [{ ctype := "entry", var := v, value := x.toTrace, comparison := cmp,
             threshold := c.threshold.getD 0,
             result := evalComparison cmp x (c.threshold.getD 0) }])
  ∧ (lookupLine bar v = none → ∀ x, lookupLine bar (sanitizeVar v) = some x →
        condResult bar c = evalComparison cmp x (c.threshold.getD 0)
      ∧ condTrace "entry" bar c =
          [{ ctype := "entry", var := v, value := x.toTrace, comparison := cmp,
             threshold := c.threshold.getD 0,
             result := evalComparison cmp x (c.threshold.getD 0) }])
  ∧ (lookupLine bar v = none → lookupLine bar (sanitizeVar v) = none →
        condResult bar c = false
      ∧ condTrace "entry" bar c =
          [{ ctype := "entry", var := v, value := none, comparison := cmp,
             threshold := c.threshold.getD 0, result := false,
             error := some "Variable not found in data feed" }])
  ∧ sanitizeVar "macd signal" = "macd_signal"
  ∧ sanitizeVar "123abc" = "ind_123abc"
  ∧ sanitizeVar "%k" = "_k" := by
  refine ⟨?_, ?_, ?_, by decide, by decide, by decide⟩
  · intro x hx
    constructor
    · simp [condResult, hc, hv, hx]
    · simp [condTrace, hc, hv, hx]
  · intro h1 x hx
    constructor
    · simp [condResult, hc, hv, h1, hx]
    · simp [condTrace, hc, hv, h1, hx]
  · intro h1 h2
    constructor
    · simp [condResult, hc, hv, h1, h2]
    · simp [condTrace, hc, hv, h1, h2]

/-- Witness for C10: on `demoBar` the name `macd signal` misses, its
sanitized form `macd_signal` hits with value 5, and the condition `> 3`
evaluates true against that value. -/
theorem sanitized_lookup_fallback_witness :
    condResult demoBar macdCond = true := by
  have h := sanitized_lookup_fallback demoBar macdCond ">" "macd signal" rfl rfl
    (by decide)
  have h2 := (h.2.1 (by decide) (.num 5) (by decide)).1
  rw [h2]
  decide

/-- C2 counterexample: a sell-direction run over a non-empty 31-bar stream
does not produce one equity point per bar.  The entry condition holds at bar
30 (the first post-warm-up bar), so `next` creates the entry sell order; its
fill on bar 31 sends `notify_order` into the exit branch, which dereferences
the never-created `current_trade` and raises AttributeError, aborting the
run: the equity curve has 30 points, not 31. -/
theorem sell_direction_run_aborts_cex :
    (runStrategy "sell" [smaCond] [] 5 25 100000
        (List.replicate 31 demoBar)).equity_curve.length = 30
  ∧ (List.replicate 31 demoBar : List Bar).length = 31
  ∧ (runStrategy "sell" [smaCond] [] 5 25 100000
        (List.replicate 31 demoBar)).equity_curve.length ≠
      (List.replicate 31 demoBar : List Bar).length
  ∧ (runStrategy "sell" [smaCond] [] 5 25 100000
        (List.replicate 31 demoBar)).error = some "AttributeError: current_trade" := by
  have hfc0 : flatClean (initState 100000) := ⟨rfl, rfl, rfl, rfl, rfl⟩
  have hW := runAux_warmup_flat "sell" [smaCond] [] 5 25 demoBar 29
    (initState 100000) 0 hfc0 (by omega)
  set S29 := runAux "sell" [smaCond] [] 5 25 (initState 100000) 0
    (List.replicate 29 demoBar) with hS29
  have h30 := sell_entry_step [] 5 25 S29 hW.1
  set S30 := nextStep "sell" [smaCond] [] 5 25 30 S29 demoBar with hS30
  have hbs : brokerStep "sell" 30 S29 demoBar = S29 :=
    brokerStep_no_order _ _ _ _ hW.1.1
  have hstep30 : runAux "sell" [smaCond] [] 5 25 S29 29 [demoBar, demoBar] =
      runAux "sell" [smaCond] [] 5 25 S30 30 [demoBar] := by
    rw [runAux_cons_ok "sell" [smaCond] [] 5 25 S29 29 demoBar [demoBar] hW.1.2.1
      (by rw [hbs]; exact hW.1.2.1), hbs]
  have hcrash := sell_crash_step [smaCond] [] 5 25 S30 30 demoBar h30.1
    h30.2.2.2.1 h30.2.1
  have hsplit : (List.replicate 31 demoBar : List Bar) =
      List.replicate 29 demoBar ++ [demoBar, demoBar] := by
    rw [show (31 : ℕ) = 29 + 2 by norm_num, List.replicate_add]
    rfl
  have hrun : runStrategy "sell" [smaCond] [] 5 25 100000 (List.replicate 31 demoBar) =
      brokerStep "sell" 31 S30 demoBar := by
    rw [runStrategy, hsplit, runAux_append]
    rw [show (0 + (List.replicate 29 demoBar).length) = 29 by simp]
    rw [← hS29, hstep30, hcrash.1]
  have hlen : (brokerStep "sell" 31 S30 demoBar).equity_curve.length = 30 := by
    rw [hcrash.2.2, hS30, h30.2.2.2.2, hW.2]
    simp [initState]
  refine ⟨by rw [hrun, hlen], by simp, ?_, by rw [hrun, hcrash.2.1]⟩
  rw [hrun, hlen]
  simp

/-- C2 amended: a buy-direction run over any bar stream produces exactly one
equity point per bar — the equity curve after n bars has exactly n points,
regardless of position state and of orders placed along the way (order fills
complete in the broker phase before `next` runs on the following bar, so the
pending-order early return never suppresses the append, and the buy-run
invariant keeps the fill handler's error paths unreachable).  Sell-direction
runs do not share this property: their entry fill raises (see the
counterexample) and ends the equity curve at the bars processed before the
abort. -/
theorem equity_curve_length_eq_bars (ec xc : List Condition) (sl tp cash : ℚ)
    (bars : List Bar) :
    (runStrategy "buy" ec xc sl tp cash bars).equity_curve.length = bars.length := by
  have h := runAux_buy_inv ec xc sl tp bars (initState cash) 0 (initState_buyRunInv cash)
  simpa [runStrategy, initState] using h.2

/-- C9: on any bar whose 1-based count from the start of the stream is below
the fixed 30-bar warm-up floor, entry evaluation returns false without
recording any tracking entry — regardless of the bar's indicator values —
and a flat strategy stays flat with no order created on that bar. -/
theorem warmup_blocks_entry (n : ℕ) (hn : n < 30) (econds : List Condition) (bar : Bar)
    (stype : String) (xconds : List Condition) (sl tp : ℚ) (st : StratState)
    (hflat : st.position = 0) (hord : st.order = none) :
    _evaluate_entry_conditions n econds bar = (false, none)
  ∧ (nextStep stype econds xconds sl tp n st bar).position = 0
  ∧ (nextStep stype econds xconds sl tp n st bar).order = none := by
  have he : _evaluate_entry_conditions n econds bar = (false, none) := by
    simp [_evaluate_entry_conditions, hn]
  refine ⟨he, ?_, ?_⟩ <;>
  · unfold nextStep
    rw [hord]
    simp [he, hflat, hord]

/-- Witness for C9: at bar 5 the `sma` condition holds on `demoBar`
(200 ≤ 205) yet evaluation returns false with no tracking record, and the
freshly initialized strategy stays flat with no order. -/
theorem warmup_blocks_entry_witness :
    _evaluate_entry_conditions 5 [smaCond] demoBar = (false, none)
  ∧ (nextStep "buy" [smaCond] [] 5 25 5 (initState 100000) demoBar).position = 0
  ∧ condResult demoBar smaCond = true := by
  have h := warmup_blocks_entry 5 (by norm_num) [smaCond] demoBar "buy" [] 5 25
    (initState 100000) rfl rfl
  exact ⟨h.1, h.2.1, by decide⟩

/-- C7: the reported Sharpe ratio is a finite number for every run and for
every returns series: whenever the standard deviation of returns is zero
(equivalently, zero variance — the standard deviation of a finite rational
series is never NaN) the computation `mean/stdev*sqrt(252)` is replaced by
0, and the substitution is total — the unguarded computation on a
zero-variance series would be NaN (or infinite), never the guarded one. -/
theorem sharpe_always_finite :
    (∀ stype : String, ∀ ec xc : List Condition, ∀ sl tp cash : ℚ, ∀ bars : List Bar,
       ((runStrategy stype ec xc sl tp cash bars).sharpe).isFinite = true)
  ∧ (∀ rs : List ℚ, (sharpeGuarded rs).isFinite = true)
  ∧ (∀ rs : List ℚ, npVar rs = 0 → sharpeGuarded rs = .fin 0)
  ∧ sharpeRaw [0, 0, 0] = .nan := by
  have hm : npMean ([0, 0, 0] : List ℚ) = 0 := by simp [npMean]
  have hv : npVar ([0, 0, 0] : List ℚ) = 0 := by simp [npVar, hm]
  refine ⟨?_, sharpeGuarded_finite, ?_, ?_⟩
  · intro stype ec xc sl tp cash bars
    exact runAux_sharpe_finite stype ec xc sl tp bars (initState cash) 0 rfl
  · intro rs h
    simp [sharpeGuarded, h]
  · simp [sharpeRaw, fdiv, hm, hv]

/-- Witness for C7: a constant returns series has zero variance and the
guarded Sharpe is 0; a non-degenerate series stays finite. -/
theorem sharpe_always_finite_witness :
    sharpeGuarded [0, 0, 0] = .fin 0
  ∧ ((runStrategy "buy" [] [] 5 25 100000 [demoBar]).sharpe).isFinite = true := by
  have h := sharpe_always_finite
  refine ⟨h.2.2.1 [0, 0, 0] ?_, h.1 "buy" [] [] 5 25 100000 [demoBar]⟩
  have hm : npMean ([0, 0, 0] : List ℚ) = 0 := by simp [npMean]
  simp [npVar, hm]

/-- C6: a well-formed condition whose variable name is absent from the bar's
lines under both its exact and its sanitized name evaluates to false and
records a single trace entry naming the variable and the lookup failure; the
remaining conditions in the list are still evaluated (the trace of the
surrounding list splits around the missing condition's entry), the entry
decision is exactly what it would be without the condition, and a run whose
entry list contains such a condition still processes every bar (one equity
point per bar), so the missing indicator never aborts the run. -/
theorem missing_variable_recoverable (bar : Bar) (pre post : List Condition)
    (c : Condition) (cmp v : String)
    (hc : c.comparison = some cmp) (hv : c.var = some v) (_hvne : v ≠ "")
    (h1 : lookupLine bar v = none) (h2 : lookupLine bar (sanitizeVar v) = none) :
    condTrace "entry" bar c =
      [{ ctype := "entry", var := v, value := none, comparison := cmp,
         threshold := c.threshold.getD 0, result := false,
         error := some "Variable not found in data feed" }]
  ∧ condResult bar c = false
  ∧ evalTrace "entry" bar (pre ++ c :: post) =
      evalTrace "entry" bar pre ++ condTrace "entry" bar c ++ evalTrace "entry" bar post
  ∧ (∀ n, (_evaluate_entry_conditions n (pre ++ c :: post) bar).1 =
      (_evaluate_entry_conditions n (pre ++ post) bar).1)
  ∧ (∀ xconds : List Condition, ∀ sl tp cash : ℚ, ∀ bars : List Bar,
      (runStrategy "buy" (pre ++ c :: post) xconds sl tp cash bars).equity_curve.length =
        bars.length) := by
  have htr : condTrace "entry" bar c =
      [{ ctype := "entry", var := v, value := none, comparison := cmp,
         threshold := c.threshold.getD 0, result := false,
         error := some "Variable not found in data feed" }] := by
    simp [condTrace, hc, hv, h1, h2]
  have hres : condResult bar c = false := by
    simp [condResult, hc, hv, h1, h2]
  refine ⟨htr, hres, ?_, ?_, ?_⟩
  · rw [evalTrace_append, evalTrace_cons]
    simp [List.append_assoc]
  · intro n
    by_cases hn : n < 30
    · simp [_evaluate_entry_conditions, hn]
    · simp only [_evaluate_entry_conditions, hn, if_false]
      rw [evalTrace_any, evalTrace_any]
      simp [List.any_append, hres]
  · intro xconds sl tp cash bars
    have h := runAux_buy_inv (pre ++ c :: post) xconds sl tp bars
      (initState cash) 0 (initState_buyRunInv cash)
    simpa [runStrategy, initState] using h.2

/-- Witness for C6: on `demoBar` the variable `rsi x` misses under both
names; the evaluation of `[smaCond, missingCond, rsiCond]` equals that of
`[smaCond, rsiCond]` and the missing condition contributes a false entry. -/
theorem missing_variable_recoverable_witness :
    condResult demoBar missingCond = false
  ∧ (_evaluate_entry_conditions 30 [smaCond, missingCond, rsiCond] demoBar).1 =
      (_evaluate_entry_conditions 30 [smaCond, rsiCond] demoBar).1 := by
  have h := missing_variable_recoverable demoBar [smaCond] [rsiCond] missingCond ">"
    "rsi x" rfl rfl (by decide) (by decide) (by decide)
  exact ⟨h.2.1, h.2.2.2.1 30⟩

end HyperTuner
